import Mathlib

/-!
Verification development for the Plinko board frontend.

The definitions below are a shallow embedding of the physics-board component
(PlinkoBoard, file src/unnamed/part_006) and of the data the board consumes:
the peg lattice built per difficulty, the collision handler that decodes the
externally supplied path into per-row steering targets, the per-tick steering
step, the completion poll, the rotating audio pool, and the multiplier tables
documented in the repository README (src/unnamed/part_000).  JavaScript
numbers are modelled as rationals; the path entries are naturals; fallible
lookups return Option.
-/

namespace Plinko

/-- Physics constant SPACING from the board component. -/
def SPACING : ℚ := 45

/-- Steering gain STEERING_FACTOR, the constant 0.1 from the board component. -/
def STEERING_FACTOR : ℚ := 1 / 10

/-- Canvas width CANVAS_WIDTH, the constant 800 from the board component. -/
def CANVAS_WIDTH : ℚ := 800

/-- Size AUDIO_POOL_SIZE of the rotating audio handle pool, the constant 5. -/
def AUDIO_POOL_SIZE : ℕ := 5

/-- Difficulty levels, from types/game.ts. -/
inductive Difficulty where
  | easy
  | medium
  | hard
deriving DecidableEq

/-- Risk levels, from types/game.ts. -/
inductive RiskLevel where
  | low
  | medium
  | high
deriving DecidableEq

/-- Modelled from the spec: the file config/multipliers.ts that defines
ROWS_CONFIG is not among the sources, only its importers are.  The row count
per difficulty follows the spec (easy 8, medium 12, hard 16), which agrees
with the repository README. -/
def ROWS_CONFIG : Difficulty → ℕ
  | Difficulty.easy => 8
  | Difficulty.medium => 12
  | Difficulty.hard => 16

/-- Multiplier tables as documented in the repository README
(src/unnamed/part_000, section Multipliers).  The file config/multipliers.ts
that the application imports is not among the sources; the README tables are
the enumeration of the multipliers present in the repository.  Decimal values
are transcribed exactly as rationals. -/
def MULTIPLIERS : Difficulty → RiskLevel → List ℚ
  | Difficulty.easy, RiskLevel.low =>
      [56/10, 21/10, 11/10, 1, 5/10, 1, 11/10, 21/10, 56/10]
  | Difficulty.easy, RiskLevel.medium =>
      [13, 3, 13/10, 7/10, 4/10, 7/10, 13/10, 3, 13]
  | Difficulty.easy, RiskLevel.high =>
      [29, 4, 15/10, 3/10, 2/10, 3/10, 15/10, 4, 29]
  | Difficulty.medium, RiskLevel.low =>
      [89/10, 3, 14/10, 11/10, 1, 5/10, 1, 11/10, 14/10, 3, 89/10]
  | Difficulty.medium, RiskLevel.medium =>
      [18, 4, 17/10, 9/10, 5/10, 3/10, 5/10, 9/10, 17/10, 4, 18]
  | Difficulty.medium, RiskLevel.high =>
      [43, 7, 2, 6/10, 2/10, 2/10, 2/10, 6/10, 2, 7, 43]
  | Difficulty.hard, RiskLevel.low =>
      [16, 9, 2, 14/10, 11/10, 1, 5/10, 1, 11/10, 14/10, 2, 9, 16]
  | Difficulty.hard, RiskLevel.medium =>
      [110, 41, 10, 5, 3, 15/10, 1, 5/10, 1, 15/10, 3, 5, 10, 41, 110]
  | Difficulty.hard, RiskLevel.high =>
      [1000, 130, 26, 9, 4, 2, 2/10, 2/10, 2/10, 2, 4, 9, 26, 130, 1000]

/-- Number of pegs in lattice row r: the loop bound row + 3 of the peg
construction loop in the board component. -/
def pegsInRow (r : ℕ) : ℕ := r + 3

/-- Vertical position of lattice row r: rowY = 80 + row * SPACING. -/
def rowY (r : ℕ) : ℚ := 80 + (r : ℚ) * SPACING

/-- Left edge of lattice row r: startX = (800 - rowWidth) / 2 with
rowWidth = (pegsInRow - 1) * SPACING. -/
def rowStartX (r : ℕ) : ℚ :=
  (CANVAS_WIDTH - ((pegsInRow r - 1 : ℕ) : ℚ) * SPACING) / 2

/-- Horizontal position of peg i in row r: startX + i * SPACING. -/
def pegX (r i : ℕ) : ℚ := rowStartX r + (i : ℚ) * SPACING

/-- A static peg body.  The source labels each peg body with the template
peg-row-index; here the row and index are carried as fields, and the
geometric position as the x and y coordinates the source gives the body. -/
structure Peg where
  row : ℕ
  index : ℕ
  x : ℚ
  y : ℚ
deriving DecidableEq

/-- The peg placed for loop indices (r, i) of the construction loop. -/
def mkPeg (r i : ℕ) : Peg := { row := r, index := i, x := pegX r i, y := rowY r }

/-- All pegs of row r, in loop order. -/
def pegsRow (r : ℕ) : List Peg := (List.range (pegsInRow r)).map (mkPeg r)

/-- The whole lattice for a given number of rows, in loop order: this is the
content of pegsRef after the construction loop. -/
def buildPegs (rows : ℕ) : List Peg := (List.range rows).flatMap pegsRow

/-- Lookup of a peg by row and index: the source finds the body whose label
equals peg-r-i in pegsRef; label equality for lattice pegs is exactly
equality of the row and index components. -/
def findPeg (rows r i : ℕ) : Option Peg :=
  (buildPegs rows).find? (fun p => p.row == r && p.index == i)

/-- Game state attached to a ball body: the path, the deepest peg row already
processed (initially -1), and the optional steering target. -/
structure BallState where
  path : List ℕ
  currentRow : ℤ
  targetX : Option ℚ
deriving DecidableEq

/-- The final bucket index computed in the last-row branch of the collision
handler: path.reduce of addition with initial accumulator 0. -/
def finalBucketIndex (path : List ℕ) : ℕ := path.foldl (fun sum dir => sum + dir) 0

/-- Width of one bucket: bucketWidth = SPACING. -/
def bucketWidth : ℚ := SPACING

/-- Left edge of the bucket strip: (CANVAS_WIDTH - totalBucketsWidth) / 2
where totalBucketsWidth = multipliers.length * bucketWidth. -/
def bucketsStartX (numMultipliers : ℕ) : ℚ :=
  (CANVAS_WIDTH - (numMultipliers : ℚ) * bucketWidth) / 2

/-- Center of bucket k: bucketsStartX + k * bucketWidth + bucketWidth / 2. -/
def bucketCenterX (numMultipliers k : ℕ) : ℚ :=
  bucketsStartX numMultipliers + (k : ℚ) * bucketWidth + bucketWidth / 2

/-- One ball-peg pair of the collisionStart handler, for the collided peg of
row pegRow and index pegIndex.  Mirrors the source: if the ball has already
processed this row or a deeper one, nothing changes; otherwise currentRow is
set to pegRow, and then: an absent path entry clears targetX; at the last row
the bucket center of finalBucketIndex becomes the target; otherwise the peg
at index pegIndex + direction of the next row is looked up, a hit sets
targetX to its x position and a miss changes nothing further. -/
def collisionStep (rows numMultipliers pegRow pegIndex : ℕ) (b : BallState) : BallState :=
  if b.currentRow < (pegRow : ℤ) then
    match b.path[pegRow]? with
    | none => { b with currentRow := (pegRow : ℤ), targetX := none }
    | some direction =>
      if pegRow = rows - 1 then
        { b with currentRow := (pegRow : ℤ),
                 targetX := some (bucketCenterX numMultipliers (finalBucketIndex b.path)) }
      else
        match findPeg rows (pegRow + 1) (pegIndex + direction) with
        | some targetPeg =>
            { b with currentRow := (pegRow : ℤ), targetX := some targetPeg.x }
        | none => { b with currentRow := (pegRow : ℤ) }
  else
    b

/-- Kinematic state of a ball body as seen by the beforeUpdate handler. -/
structure PhysBall where
  posX : ℚ
  velX : ℚ
  velY : ℚ
  state : BallState
deriving DecidableEq

/-- The steering applied to one ball body by the beforeUpdate handler: with a
defined target, setVelocity with x = (targetX - position.x) * STEERING_FACTOR
and the unchanged vertical velocity; without a target, nothing. -/
def steeringStep (b : PhysBall) : PhysBall :=
  match b.state.targetX with
  | some tx => { b with velX := (tx - b.posX) * STEERING_FACTOR }
  | none => b

/-- The whole beforeUpdate handler: the steering step applied to every live
ball body of the world. -/
def beforeUpdate (balls : List PhysBall) : List PhysBall := balls.map steeringStep

/-- A body of the simulation world as seen by the completion poll: its ball
id, whether its label is the ball label, and its vertical position.  Ball ids
are opaque identifiers, modelled as naturals. -/
structure SimBody where
  ballId : ℕ
  isBall : Bool
  posY : ℚ
deriving DecidableEq

/-- Bottom boundary used by the completion poll: rows * SPACING + 40. -/
def bottomBoundary (rows : ℕ) : ℚ := (rows : ℚ) * SPACING + 40

/-- One firing of the completion poll: the ids of all ball-labelled bodies
whose vertical position exceeds the bottom boundary, in world order.  Each
listed id is one onAnimationComplete call. -/
def pollEmits (rows : ℕ) (world : List SimBody) : List ℕ :=
  ((world.filter
      (fun b => b.isBall && decide (bottomBoundary rows < b.posY))).map SimBody.ballId)

/-- Removal of a completed ball: onAnimationComplete filters the ball out of
the balls state, after which the body-sync effect removes every ball body
carrying that id from the world. -/
def removeBallBody (id : ℕ) (world : List SimBody) : List SimBody :=
  world.filter (fun b => !(b.isBall && b.ballId == id))

/-- Scheduler events of the completion machinery: a firing of the 1000 ms
poll timer, or the processing of a completed ball removal. -/
inductive SchedStep where
  | poll
  | removeBall (id : ℕ)

/-- Execution of a schedule of poll firings and removals from a world state,
returning the final world and the concatenated completion emissions. -/
def runSched (rows : ℕ) : List SchedStep → List SimBody → List SimBody × List ℕ
  | [], world => (world, [])
  | SchedStep.poll :: rest, world =>
      let res := runSched rows rest world
      (res.1, pollEmits rows world ++ res.2)
  | SchedStep.removeBall id :: rest, world =>
      runSched rows rest (removeBallBody id world)

/-- One pooled audio handle: its playback position and, as specification
instrumentation, how often it has been played. -/
structure AudioHandle where
  currentTime : ℚ
  playCount : ℕ
deriving DecidableEq

/-- The pool created at mount: AUDIO_POOL_SIZE fresh handles. -/
def initAudioPool : List AudioHandle :=
  List.replicate AUDIO_POOL_SIZE { currentTime := 0, playCount := 0 }

/-- State of the audio machinery: the pool and the rotating index. -/
structure AudioPoolState where
  pool : List AudioHandle
  currentIndex : ℕ
deriving DecidableEq

/-- The audio state right after mount. -/
def initAudioState : AudioPoolState := { pool := initAudioPool, currentIndex := 0 }

/-- The playHitSound handler.  When muted nothing happens.  Otherwise the
handle at the rotating index, when present, has its playback position reset
and is played; the play promise failure is caught and logged, so the
resulting state does not depend on the playbackOk outcome; finally the index
advances modulo AUDIO_POOL_SIZE. -/
def playHitSound (muted playbackOk : Bool) (s : AudioPoolState) : AudioPoolState :=
  if muted then s
  else
    match s.pool[s.currentIndex]? with
    | some audio =>
        { pool := s.pool.set s.currentIndex
            { currentTime := 0, playCount := audio.playCount + 1 },
          currentIndex := (s.currentIndex + 1) % AUDIO_POOL_SIZE }
    | none =>
        { pool := s.pool, currentIndex := (s.currentIndex + 1) % AUDIO_POOL_SIZE }

/-- Iterated collision sound triggers, first trigger applied first. -/
def playRepeat (muted playbackOk : Bool) : ℕ → AudioPoolState → AudioPoolState
  | 0, s => s
  | n + 1, s => playRepeat muted playbackOk n (playHitSound muted playbackOk s)


theorem mem_pegsRow {r : ℕ} {p : Peg} :
    p ∈ pegsRow r ↔ ∃ i, i < pegsInRow r ∧ p = mkPeg r i := by
  simp [pegsRow, List.mem_map, List.mem_range, eq_comm]

theorem mem_buildPegs {rows : ℕ} {p : Peg} :
    p ∈ buildPegs rows ↔ ∃ r, r < rows ∧ ∃ i, i < pegsInRow r ∧ p = mkPeg r i := by
  simp [buildPegs, List.mem_flatMap, List.mem_range, mem_pegsRow]

theorem findPeg_eq {rows r i : ℕ} (hr : r < rows) (hi : i < pegsInRow r) :
    findPeg rows r i = some (mkPeg r i) := by
  have hmem : mkPeg r i ∈ buildPegs rows := mem_buildPegs.2 ⟨r, hr, i, hi, rfl⟩
  have hsome : (findPeg rows r i).isSome := by
    rw [findPeg, List.find?_isSome]
    exact ⟨mkPeg r i, hmem, by simp [mkPeg]⟩
  obtain ⟨q, hq⟩ := Option.isSome_iff_exists.1 hsome
  have hqm : q ∈ buildPegs rows := List.mem_of_find?_eq_some hq
  have hpred := List.find?_some hq
  simp only [Bool.and_eq_true, beq_iff_eq] at hpred
  obtain ⟨r2, hr2, i2, hi2, rfl⟩ := mem_buildPegs.1 hqm
  simp only [mkPeg] at hpred
  rw [hq, hpred.1, hpred.2]

theorem row_eq_of_mem_pegsRow {r : ℕ} {p : Peg} (h : p ∈ pegsRow r) : p.row = r := by
  obtain ⟨i, hi, rfl⟩ := mem_pegsRow.1 h
  rfl

theorem row_lt_of_mem_buildPegs {rows : ℕ} {p : Peg} (h : p ∈ buildPegs rows) :
    p.row < rows := by
  obtain ⟨r, hr, i, hi, rfl⟩ := mem_buildPegs.1 h
  exact hr

theorem buildPegs_succ (n : ℕ) : buildPegs (n + 1) = buildPegs n ++ pegsRow n := by
  rw [buildPegs, buildPegs, List.range_succ, List.flatMap_append]
  simp

theorem length_filter_row_buildPegs {rows r : ℕ} (hr : r < rows) :
    ((buildPegs rows).filter (fun p => p.row == r)).length = pegsInRow r := by
  induction rows with
  | zero => omega
  | succ n ih =>
    rw [buildPegs_succ, List.filter_append, List.length_append]
    by_cases hc : r = n
    · subst hc
      have h1 : (buildPegs r).filter (fun p => p.row == r) = [] := by
        rw [List.filter_eq_nil_iff]
        intro p hp
        have h3 := row_lt_of_mem_buildPegs hp
        simp only [beq_iff_eq]
        omega
      have h2 : (pegsRow r).filter (fun p => p.row == r) = pegsRow r := by
        rw [List.filter_eq_self]
        intro p hp
        simp [row_eq_of_mem_pegsRow hp]
      rw [h1, h2]
      simp [pegsRow]
    · have hlt : r < n := by omega
      have h2 : (pegsRow n).filter (fun p => p.row == r) = [] := by
        rw [List.filter_eq_nil_iff]
        intro p hp
        have h3 := row_eq_of_mem_pegsRow hp
        simp only [beq_iff_eq]
        omega
      rw [ih hlt, h2]
      simp

theorem foldl_add_init (l : List ℕ) (a : ℕ) :
    l.foldl (fun sum dir => sum + dir) a = a + l.sum := by
  induction l generalizing a with
  | nil => simp
  | cons x xs ih =>
    rw [List.foldl_cons, ih, List.sum_cons]
    omega

theorem sum_le_length_of_binary (l : List ℕ) (h : ∀ x ∈ l, x = 0 ∨ x = 1) :
    l.sum ≤ l.length := by
  induction l with
  | nil => simp
  | cons x xs ih =>
    have hx := h x (by simp)
    have hxs : ∀ y ∈ xs, y = 0 ∨ y = 1 := fun y hy => h y (by simp [hy])
    have h2 := ih hxs
    rw [List.sum_cons, List.length_cons]
    rcases hx with rfl | rfl <;> omega

/-- C1: for every path that is a list of exactly rows binary values, the final
bucket index computed at the last-row collision (finalBucketIndex, the reduce
over the whole path) equals the sum of the path and lies in [0, rows]. -/
theorem C1_final_bucket_index (rows : ℕ) (path : List ℕ)
    (hlen : path.length = rows) (hbin : ∀ x ∈ path, x = 0 ∨ x = 1) :
    finalBucketIndex path = path.sum ∧ finalBucketIndex path ≤ rows := by
  have h1 : finalBucketIndex path = path.sum := by
    rw [finalBucketIndex, foldl_add_init]
    omega
  refine ⟨h1, ?_⟩
  rw [h1, ← hlen]
  exact sum_le_length_of_binary path hbin

theorem C1_witness :
    ([1, 1, 0, 1, 0, 0, 1, 1] : List ℕ).length = 8 ∧
    (∀ x ∈ ([1, 1, 0, 1, 0, 0, 1, 1] : List ℕ), x = 0 ∨ x = 1) ∧
    (finalBucketIndex [1, 1, 0, 1, 0, 0, 1, 1] = ([1, 1, 0, 1, 0, 0, 1, 1] : List ℕ).sum ∧
      finalBucketIndex [1, 1, 0, 1, 0, 0, 1, 1] ≤ 8) :=
  ⟨by decide, by decide, C1_final_bucket_index 8 [1, 1, 0, 1, 0, 0, 1, 1] (by decide) (by decide)⟩

/-- C2: at the first collision with a last-row peg, when the multiplier table
has rows + 1 entries, the target becomes the center of the final bucket:
(CANVAS_WIDTH - (rows+1) * SPACING) / 2 + finalBucketIndex * SPACING + SPACING / 2. -/
theorem C2_last_row_bucket_center (rows pegIndex : ℕ) (b : BallState)
    (hrows : 0 < rows) (hlen : b.path.length = rows)
    (hcur : b.currentRow < ((rows - 1 : ℕ) : ℤ)) :
    (collisionStep rows (rows + 1) (rows - 1) pegIndex b).targetX =
      some ((CANVAS_WIDTH - ((rows : ℚ) + 1) * SPACING) / 2
        + (finalBucketIndex b.path : ℚ) * SPACING + SPACING / 2) := by
  have hidx : rows - 1 < b.path.length := by omega
  obtain ⟨d, hd⟩ : ∃ x, b.path[rows - 1]? = some x :=
    ⟨_, List.getElem?_eq_getElem hidx⟩
  unfold collisionStep
  rw [if_pos hcur]
  simp only [hd, if_true]
  simp only [Option.some.injEq]
  rw [bucketCenterX, bucketsStartX, bucketWidth]
  push_cast
  ring

theorem C2_witness :
    (0 < 8 ∧ ([1, 1, 0, 1, 0, 0, 1, 1] : List ℕ).length = 8 ∧
      (((6 : ℤ) < ((8 - 1 : ℕ) : ℤ)))) ∧
    (collisionStep 8 (8 + 1) (8 - 1) 3
        { path := [1, 1, 0, 1, 0, 0, 1, 1], currentRow := 6, targetX := some 100 }).targetX =
      some ((CANVAS_WIDTH - ((8 : ℚ) + 1) * SPACING) / 2
        + (finalBucketIndex [1, 1, 0, 1, 0, 0, 1, 1] : ℚ) * SPACING + SPACING / 2) :=
  ⟨⟨by decide, by decide, by decide⟩,
    C2_last_row_bucket_center 8 3
      { path := [1, 1, 0, 1, 0, 0, 1, 1], currentRow := 6, targetX := some 100 }
      (by decide) (by decide) (by decide)⟩

/-- C4: a ball that has not yet processed row pegRow and collides with peg
pegIndex of a non-final row is retargeted to the x position of peg
pegIndex + direction of the next row, and that index is in bounds because the
next row has exactly one more peg. -/
theorem C4_next_peg_target (rows numMultipliers pegRow pegIndex d : ℕ) (b : BallState)
    (hrow : pegRow < rows - 1)
    (hcur : b.currentRow < (pegRow : ℤ))
    (hd : b.path[pegRow]? = some d)
    (hbin : d = 0 ∨ d = 1)
    (hpeg : pegIndex < pegsInRow pegRow) :
    pegsInRow (pegRow + 1) = pegsInRow pegRow + 1 ∧
    pegIndex + d < pegsInRow (pegRow + 1) ∧
    (collisionStep rows numMultipliers pegRow pegIndex b).targetX =
      some (pegX (pegRow + 1) (pegIndex + d)) := by
  have hd1 : d ≤ 1 := by rcases hbin with rfl | rfl <;> omega
  have hbound : pegIndex + d < pegsInRow (pegRow + 1) := by
    rw [pegsInRow] at hpeg ⊢
    omega
  have hne : pegRow ≠ rows - 1 := by omega
  have hfind := findPeg_eq (show pegRow + 1 < rows by omega) hbound
  refine ⟨rfl, hbound, ?_⟩
  unfold collisionStep
  rw [if_pos hcur]
  simp only [hd]
  rw [if_neg hne]
  simp only [hfind, mkPeg]

theorem C4_witness :
    (2 < 8 - 1 ∧ ((1 : ℤ) < (2 : ℤ)) ∧
      (([1, 1, 0, 1, 0, 0, 1, 1] : List ℕ)[2]? = some 0) ∧ (2 < pegsInRow 2)) ∧
    (pegsInRow (2 + 1) = pegsInRow 2 + 1 ∧
      2 + 0 < pegsInRow (2 + 1) ∧
      (collisionStep 8 9 2 2
          { path := [1, 1, 0, 1, 0, 0, 1, 1], currentRow := 1, targetX := some 300 }).targetX =
        some (pegX (2 + 1) (2 + 0))) :=
  ⟨⟨by decide, by decide, by decide, by decide⟩,
    C4_next_peg_target 8 9 2 2 0
      { path := [1, 1, 0, 1, 0, 0, 1, 1], currentRow := 1, targetX := some 300 }
      (by decide) (by decide) (by decide) (by decide) (by decide)⟩

/-- C5: for every difficulty, every lattice row r below the row count has
exactly r + 3 pegs, and peg i of row r sits at
x = (CANVAS_WIDTH - (r+2) * SPACING) / 2 + i * SPACING and y = 80 + r * SPACING. -/
theorem C5_lattice_layout (d : Difficulty) (r : ℕ) (hr : r < ROWS_CONFIG d) :
    ((buildPegs (ROWS_CONFIG d)).filter (fun p => p.row == r)).length = r + 3 ∧
    ∀ i, i < r + 3 →
      findPeg (ROWS_CONFIG d) r i =
        some { row := r, index := i,
               x := (CANVAS_WIDTH - ((r : ℚ) + 2) * SPACING) / 2 + (i : ℚ) * SPACING,
               y := 80 + (r : ℚ) * SPACING } := by
  refine ⟨length_filter_row_buildPegs hr, ?_⟩
  intro i hi
  rw [findPeg_eq hr (by rw [pegsInRow]; omega)]
  simp only [mkPeg, pegX, rowStartX, rowY, pegsInRow, Option.some.injEq, Peg.mk.injEq,
    true_and]
  constructor
  · push_cast
    ring
  · trivial

theorem C5_witness :
    2 < ROWS_CONFIG Difficulty.easy ∧
    (((buildPegs (ROWS_CONFIG Difficulty.easy)).filter (fun p => p.row == 2)).length = 2 + 3 ∧
      ∀ i, i < 2 + 3 →
        findPeg (ROWS_CONFIG Difficulty.easy) 2 i =
          some { row := 2, index := i,
                 x := (CANVAS_WIDTH - ((2 : ℚ) + 2) * SPACING) / 2 + (i : ℚ) * SPACING,
                 y := 80 + (2 : ℚ) * SPACING }) :=
  ⟨by decide, C5_lattice_layout Difficulty.easy 2 (by decide)⟩

/-- C3: the per-tick steering step applied to a ball with a defined target
sets the horizontal velocity to (targetX - position.x) * STEERING_FACTOR
(the gain constant 0.1), leaves everything else including the vertical
velocity unchanged, and a ball without a target is left untouched. -/
theorem C3_steering (b : PhysBall) (tx : ℚ) (h : b.state.targetX = some tx) :
    steeringStep b = { b with velX := (tx - b.posX) * STEERING_FACTOR } ∧
    STEERING_FACTOR = 1 / 10 ∧
    ∀ c : PhysBall, c.state.targetX = none → steeringStep c = c := by
  refine ⟨?_, rfl, ?_⟩
  · unfold steeringStep
    simp only [h]
  · intro c hc
    unfold steeringStep
    simp only [hc]

theorem C3_witness :
    ({ posX := 400, velX := 2, velY := 3,
       state := { path := [1, 0], currentRow := 0, targetX := some 445 } } :
        PhysBall).state.targetX = some 445 ∧
    (steeringStep
        { posX := 400, velX := 2, velY := 3,
          state := { path := [1, 0], currentRow := 0, targetX := some 445 } } =
      { posX := 400, velX := ((445 : ℚ) - 400) * STEERING_FACTOR, velY := 3,
        state := { path := [1, 0], currentRow := 0, targetX := some 445 } } ∧
      STEERING_FACTOR = 1 / 10 ∧
      ∀ c : PhysBall, c.state.targetX = none → steeringStep c = c) :=
  ⟨rfl, C3_steering
    { posX := 400, velX := 2, velY := 3,
      state := { path := [1, 0], currentRow := 0, targetX := some 445 } } 445 rfl⟩

/-- C10: the collision handler never decreases the currentRow of a ball, leaves
the ball state completely unchanged unless the collided peg row is strictly
deeper than currentRow, and when it does act it advances currentRow to the
collided row, so each row is decoded at most once per ball. -/
theorem C10_current_row_guard (rows numMultipliers pegRow pegIndex : ℕ) (b : BallState) :
    b.currentRow ≤ (collisionStep rows numMultipliers pegRow pegIndex b).currentRow ∧
    (¬ b.currentRow < (pegRow : ℤ) →
      collisionStep rows numMultipliers pegRow pegIndex b = b) ∧
    (b.currentRow < (pegRow : ℤ) →
      (collisionStep rows numMultipliers pegRow pegIndex b).currentRow = (pegRow : ℤ)) := by
  by_cases hcur : b.currentRow < (pegRow : ℤ)
  · have hrow : (collisionStep rows numMultipliers pegRow pegIndex b).currentRow =
        (pegRow : ℤ) := by
      unfold collisionStep
      rw [if_pos hcur]
      cases hp : b.path[pegRow]? with
      | none => simp only [hp]
      | some d =>
        simp only [hp]
        by_cases hne : pegRow = rows - 1
        · rw [if_pos hne]
        · rw [if_neg hne]
          cases hf : findPeg rows (pegRow + 1) (pegIndex + d) with
          | none => simp only [hf]
          | some tp => simp only [hf]
    exact ⟨by rw [hrow]; exact le_of_lt hcur, fun hn => absurd hcur hn, fun _ => hrow⟩
  · have heq : collisionStep rows numMultipliers pegRow pegIndex b = b := by
      unfold collisionStep
      rw [if_neg hcur]
    exact ⟨by rw [heq], fun _ => heq, fun hlt => absurd hlt hcur⟩

theorem C10_witness :
    ¬ ((5 : ℤ) < (2 : ℤ)) ∧
    collisionStep 8 9 2 1 { path := [1, 1, 0, 1, 0, 0, 1, 1], currentRow := 5, targetX := some 300 } =
      { path := [1, 1, 0, 1, 0, 0, 1, 1], currentRow := 5, targetX := some 300 } :=
  ⟨by decide,
    (C10_current_row_guard 8 9 2 1
      { path := [1, 1, 0, 1, 0, 0, 1, 1], currentRow := 5, targetX := some 300 }).2.1
      (by decide)⟩

/-- C8 counterexample input: a ball that already carries a steering target
collides with peg 1 of row 1 while its path entry for row 1 is the malformed
direction 7, so the target peg lookup in row 2 misses; the handler keeps the
stale target 400 instead of leaving the target unset for free fall. -/
theorem C8_counterexample :
    findPeg 8 2 8 = none ∧
    (collisionStep 8 9 1 1
        { path := [0, 7, 0, 0, 0, 0, 0, 0], currentRow := 0, targetX := some 400 }).targetX =
      some 400 := by
  decide

/-- C8 amended: with an undefined path entry the target is cleared and the
ball free-falls; with a failed target-peg lookup the target is left unchanged
(so the ball free-falls only if no target had ever been set); the handler is
a total function; and for a well-formed binary path of length rows at an
in-lattice peg, neither fallback occurs: a target is always produced. -/
theorem C8_defensive_fallback (rows numMultipliers pegRow pegIndex : ℕ) (b : BallState)
    (hcur : b.currentRow < (pegRow : ℤ)) :
    (b.path[pegRow]? = none →
      (collisionStep rows numMultipliers pegRow pegIndex b).targetX = none) ∧
    (∀ d, b.path[pegRow]? = some d → pegRow ≠ rows - 1 →
      findPeg rows (pegRow + 1) (pegIndex + d) = none →
      (collisionStep rows numMultipliers pegRow pegIndex b).targetX = b.targetX) ∧
    (b.path.length = rows → pegRow < rows → pegIndex < pegsInRow pegRow →
      (∀ x ∈ b.path, x = 0 ∨ x = 1) →
      ∃ tx, (collisionStep rows numMultipliers pegRow pegIndex b).targetX = some tx) := by
  refine ⟨?_, ?_, ?_⟩
  · intro hnone
    unfold collisionStep
    rw [if_pos hcur]
    simp only [hnone]
  · intro d hd hne hfind
    unfold collisionStep
    rw [if_pos hcur]
    simp only [hd]
    rw [if_neg hne]
    simp only [hfind]
  · intro hlen hlt hpeg hbin
    have hidx : pegRow < b.path.length := by omega
    obtain ⟨d, hd⟩ : ∃ x, b.path[pegRow]? = some x :=
      ⟨_, List.getElem?_eq_getElem hidx⟩
    by_cases hne : pegRow = rows - 1
    · refine ⟨bucketCenterX numMultipliers (finalBucketIndex b.path), ?_⟩
      unfold collisionStep
      rw [if_pos hcur]
      simp only [hd]
      rw [if_pos hne]
    · have hdmem : d ∈ b.path := List.getElem?_mem hd
      have hd1 : d ≤ 1 := by rcases hbin d hdmem with rfl | rfl <;> omega
      have hfind := @findPeg_eq rows (pegRow + 1) (pegIndex + d)
        (by omega) (by rw [pegsInRow] at hpeg ⊢; omega)
      refine ⟨(mkPeg (pegRow + 1) (pegIndex + d)).x, ?_⟩
      unfold collisionStep
      rw [if_pos hcur]
      simp only [hd]
      rw [if_neg hne]
      simp only [hfind]

theorem C8_witness :
    ((-1 : ℤ) < (0 : ℤ)) ∧
    ((([1, 1, 0, 1, 0, 0, 1, 1] : List ℕ)[0]? = none →
      (collisionStep 8 9 0 1
          { path := [1, 1, 0, 1, 0, 0, 1, 1], currentRow := -1, targetX := none }).targetX = none) ∧
    (∀ d, ([1, 1, 0, 1, 0, 0, 1, 1] : List ℕ)[0]? = some d → (0 : ℕ) ≠ 8 - 1 →
      findPeg 8 (0 + 1) (1 + d) = none →
      (collisionStep 8 9 0 1
          { path := [1, 1, 0, 1, 0, 0, 1, 1], currentRow := -1, targetX := none }).targetX = none) ∧
    (([1, 1, 0, 1, 0, 0, 1, 1] : List ℕ).length = 8 → (0 : ℕ) < 8 → 1 < pegsInRow 0 →
      (∀ x ∈ ([1, 1, 0, 1, 0, 0, 1, 1] : List ℕ), x = 0 ∨ x = 1) →
      ∃ tx, (collisionStep 8 9 0 1
          { path := [1, 1, 0, 1, 0, 0, 1, 1], currentRow := -1, targetX := none }).targetX = some tx)) :=
  ⟨by decide,
    C8_defensive_fallback 8 9 0 1
      { path := [1, 1, 0, 1, 0, 0, 1, 1], currentRow := -1, targetX := none } (by decide)⟩

/-- C6 evidence: at difficulty medium (12 rows), risk low, the multiplier
table documented in the repository has 11 entries, not rows + 1 = 13, so the
final bucket indices 11 and 12 are not indexable; the easy tables do have
rows + 1 entries. -/
theorem C6_table_length_bug :
    ROWS_CONFIG Difficulty.medium = 12 ∧
    (MULTIPLIERS Difficulty.medium RiskLevel.low).length = 11 ∧
    (MULTIPLIERS Difficulty.medium RiskLevel.low).length ≠
      ROWS_CONFIG Difficulty.medium + 1 ∧
    (MULTIPLIERS Difficulty.easy RiskLevel.low).length = ROWS_CONFIG Difficulty.easy + 1 := by
  refine ⟨rfl, ?_, ?_, ?_⟩ <;> decide

theorem not_mem_runSched_emits (rows id : ℕ) (steps : List SchedStep)
    (world : List SimBody)
    (hw : ∀ b ∈ world, ¬(b.isBall = true ∧ b.ballId = id)) :
    id ∉ (runSched rows steps world).2 := by
  induction steps generalizing world with
  | nil => simp [runSched]
  | cons st rest ih =>
    cases st with
    | poll =>
      simp only [runSched, List.mem_append]
      rintro (hmem | hmem)
      · rw [pollEmits] at hmem
        simp only [List.mem_map, List.mem_filter, Bool.and_eq_true,
          decide_eq_true_eq] at hmem
        obtain ⟨b, ⟨hbw, hball, hy⟩, hbid⟩ := hmem
        exact hw b hbw ⟨hball, hbid⟩
      · exact ih world hw hmem
    | removeBall id2 =>
      simp only [runSched]
      apply ih
      intro b hb
      exact hw b (List.mem_of_mem_filter hb)

theorem removeBallBody_clears (id : ℕ) (world : List SimBody) :
    ∀ b ∈ removeBallBody id world, ¬(b.isBall = true ∧ b.ballId = id) := by
  intro b hb
  rw [removeBallBody] at hb
  simp only [List.mem_filter, Bool.not_eq_eq_eq_not, Bool.not_true,
    Bool.and_eq_false_iff] at hb
  rintro ⟨h1, h2⟩
  rcases hb.2 with h3 | h3
  · rw [h1] at h3
    exact Bool.noConfusion h3
  · have h4 : (b.ballId == id) = true := beq_iff_eq.2 h2
    rw [h4] at h3
    exact Bool.noConfusion h3

theorem count_pollEmits (rows id : ℕ) (world : List SimBody) :
    (pollEmits rows world).count id =
      (world.filter (fun b => (b.ballId == id) &&
        (b.isBall && decide (bottomBoundary rows < b.posY)))).length := by
  rw [pollEmits, List.count_eq_countP, List.countP_map, List.countP_filter,
    List.countP_eq_length_filter]
  rfl

/-- C7 counterexample: a world holding one ball body below the bottom
boundary, polled twice before its removal is processed, emits its completion
id twice, so completion is not emitted exactly once per ball. -/
theorem C7_counterexample :
    (runSched 8 [SchedStep.poll, SchedStep.poll]
        [{ ballId := 1, isBall := true, posY := 500 }]).2.count 1 = 2 := by
  have h : (decide (bottomBoundary 8 < (500 : ℚ))) = true := by
    rw [decide_eq_true_eq]
    unfold bottomBoundary SPACING
    norm_num
  simp [runSched, pollEmits, h]

/-- C7 amended: the poll emits a completion for every ball body below the
bottom boundary; when the world holds exactly one matching body for an id, a
poll followed by the processing of the removal yields exactly one completion
for that id no matter what the schedule does afterwards; and once the removal
of an id has been processed, no later poll ever emits that id again. -/
theorem C7_completion_events (rows id : ℕ) (world : List SimBody)
    (steps : List SchedStep)
    (h1 : (world.filter (fun b => (b.ballId == id) &&
        (b.isBall && decide (bottomBoundary rows < b.posY)))).length = 1) :
    (∀ b ∈ world, b.isBall = true → bottomBoundary rows < b.posY →
      b.ballId ∈ pollEmits rows world) ∧
    (runSched rows (SchedStep.poll :: SchedStep.removeBall id :: steps) world).2.count id = 1 ∧
    (∀ steps2 : List SchedStep, ∀ w2 : List SimBody,
      id ∉ (runSched rows (SchedStep.removeBall id :: steps2) w2).2) := by
  refine ⟨?_, ?_, ?_⟩
  · intro b hb hball hy
    rw [pollEmits]
    refine List.mem_map.2 ⟨b, List.mem_filter.2 ⟨hb, ?_⟩, rfl⟩
    simp [hball, hy]
  · have h3 : id ∉ (runSched rows steps (removeBallBody id world)).2 :=
      not_mem_runSched_emits rows id steps _ (removeBallBody_clears id world)
    simp only [runSched]
    rw [List.count_append, count_pollEmits, h1, List.count_eq_zero.2 h3]
  · intro steps2 w2
    simp only [runSched]
    exact not_mem_runSched_emits rows id steps2 _ (removeBallBody_clears id w2)

theorem C7_witness :
    (([({ ballId := 1, isBall := true, posY := 500 } : SimBody)].filter
        (fun b => (b.ballId == 1) &&
          (b.isBall && decide (bottomBoundary 8 < b.posY)))).length = 1) ∧
    ((∀ b ∈ [({ ballId := 1, isBall := true, posY := 500 } : SimBody)],
        b.isBall = true → bottomBoundary 8 < b.posY →
        b.ballId ∈ pollEmits 8 [{ ballId := 1, isBall := true, posY := 500 }]) ∧
      (runSched 8 [SchedStep.poll, SchedStep.removeBall 1]
          [{ ballId := 1, isBall := true, posY := 500 }]).2.count 1 = 1 ∧
      (∀ steps2 : List SchedStep, ∀ w2 : List SimBody,
        (1 : ℕ) ∉ (runSched 8 (SchedStep.removeBall 1 :: steps2) w2).2)) := by
  have hd : (decide (bottomBoundary 8 < (500 : ℚ))) = true := by
    rw [decide_eq_true_eq]
    unfold bottomBoundary SPACING
    norm_num
  have h1 : ([({ ballId := 1, isBall := true, posY := 500 } : SimBody)].filter
      (fun b => (b.ballId == 1) &&
        (b.isBall && decide (bottomBoundary 8 < b.posY)))).length = 1 := by
    simp [hd]
  exact ⟨h1, C7_completion_events 8 1 [{ ballId := 1, isBall := true, posY := 500 }] [] h1⟩

theorem playHitSound_index (ok : Bool) (s : AudioPoolState) :
    (playHitSound false ok s).currentIndex = (s.currentIndex + 1) % AUDIO_POOL_SIZE := by
  cases hp : s.pool[s.currentIndex]? <;> simp [playHitSound, hp]

theorem playRepeat_index (ok : Bool) (n : ℕ) (s : AudioPoolState)
    (h : s.currentIndex < AUDIO_POOL_SIZE) :
    (playRepeat false ok n s).currentIndex = (s.currentIndex + n) % AUDIO_POOL_SIZE := by
  induction n generalizing s with
  | zero =>
    simp [playRepeat, Nat.mod_eq_of_lt h]
  | succ m ih =>
    have hlt : (playHitSound false ok s).currentIndex < AUDIO_POOL_SIZE := by
      rw [playHitSound_index]
      exact Nat.mod_lt _ (by rw [AUDIO_POOL_SIZE]; omega)
    rw [playRepeat, ih (playHitSound false ok s) hlt, playHitSound_index,
      Nat.mod_add_mod]
    rw [AUDIO_POOL_SIZE]
    omega

/-- C9: the pool is created with exactly AUDIO_POOL_SIZE = 5 handles; an
unmuted trigger resets the playback position of the handle at the rotating
index, plays it, and advances the index modulo 5, so five triggers return the
index to its start and the sixth trigger from a fresh state replays the first
handle; the state never depends on whether playback succeeded, and a muted
trigger changes nothing. -/
theorem C9_audio_pool (ok : Bool) (s : AudioPoolState) (a : AudioHandle)
    (hidx : s.currentIndex < AUDIO_POOL_SIZE)
    (ha : s.pool[s.currentIndex]? = some a) :
    initAudioPool.length = AUDIO_POOL_SIZE ∧
    (playHitSound false ok s).pool[s.currentIndex]? =
      some { currentTime := 0, playCount := a.playCount + 1 } ∧
    (playHitSound false ok s).currentIndex = (s.currentIndex + 1) % AUDIO_POOL_SIZE ∧
    (playRepeat false ok AUDIO_POOL_SIZE s).currentIndex = s.currentIndex ∧
    (playRepeat false ok (AUDIO_POOL_SIZE + 1) initAudioState).pool[0]? =
      some { currentTime := 0, playCount := 2 } ∧
    playHitSound false true s = playHitSound false false s ∧
    ∀ t : AudioPoolState, playHitSound true ok t = t := by
  have hlen : s.currentIndex < s.pool.length := by
    rcases List.getElem?_eq_some_iff.1 ha with ⟨h, _⟩
    exact h
  refine ⟨rfl, ?_, playHitSound_index ok s, ?_, ?_, rfl, ?_⟩
  · simp only [playHitSound, ha, Bool.false_eq_true, if_false]
    exact List.getElem?_set_self hlen
  · rw [playRepeat_index ok AUDIO_POOL_SIZE s hidx, Nat.add_mod_right]
    exact Nat.mod_eq_of_lt hidx
  · cases ok <;> decide
  · intro t
    simp [playHitSound]

theorem C9_witness :
    ((0 : ℕ) < AUDIO_POOL_SIZE ∧
      initAudioState.pool[initAudioState.currentIndex]? =
        some { currentTime := 0, playCount := 0 }) ∧
    (initAudioPool.length = AUDIO_POOL_SIZE ∧
      (playHitSound false true initAudioState).pool[initAudioState.currentIndex]? =
        some { currentTime := 0, playCount := 0 + 1 } ∧
      (playHitSound false true initAudioState).currentIndex =
        (initAudioState.currentIndex + 1) % AUDIO_POOL_SIZE ∧
      (playRepeat false true AUDIO_POOL_SIZE initAudioState).currentIndex =
        initAudioState.currentIndex ∧
      (playRepeat false true (AUDIO_POOL_SIZE + 1) initAudioState).pool[0]? =
        some { currentTime := 0, playCount := 2 } ∧
      playHitSound false true initAudioState = playHitSound false false initAudioState ∧
      ∀ t : AudioPoolState, playHitSound true true t = t) :=
  ⟨⟨by decide, by decide⟩,
    C9_audio_pool true initAudioState { currentTime := 0, playCount := 0 }
      (by decide) (by decide)⟩

end Plinko
